import Mathlib

/-!
Verification development for the hedge-simulator repository.

The development shallowly embeds the parts of the code base that the
specification talks about:

* `src/utils/utils.py` — `get_next_friday`;
* `src/simulation/base_simulator.py` — the `OptionsSimulator` engine
  (construction, option creation, the per-ticker day walk with its expiry
  settlement and rally-trigger branches, and the open-date-keyed priority
  queue of in-flight options);
* `src/simulation/calculations.py` — the Black–Scholes pricer;
* `src/performance/metrics.py` — `volatility`;
* `src/core/stats.py` — `cum_returns`, `drawdown_series`, `max_drawdown`;
* `src/performance/portfolio.py` — `get_positions`.

Machine floats are modelled as exact rationals (for the engine, the stats
library and the position builder, whose arithmetic is `+ - * / <` and
truncation) or as real numbers (for the pricer and the volatility function,
which use `log`, `exp`, `sqrt` and the normal CDF).  Calendar dates are
modelled as integers counting days from a fixed epoch chosen so that day 0
is a Monday; `d % 7` is then Python's `date.weekday()` (Monday = 0, …,
Sunday = 6).  External price-history lookups (`read_prices`, the
`portfolio.prices` matrix) are abstracted as oracles passed to the engine;
every quantity the engine itself computes (strikes, expiries, settlement
share counts, cash, transactions) is transcribed from the source.
-/

namespace HedgeSim

/-- Python's `date.weekday()` under the day-number model of dates. -/
def weekday (d : ℤ) : ℤ := d % 7

/-- Embedding of `get_next_friday` (src/utils/utils.py).  The source computes
`day_of_week = dt.weekday()`, replaces it by `day_of_week - 7` when it is at
least 4, and returns `dt + timedelta(days=4 - day_of_week)`; the two branches
below are that computation with the subtraction folded in. -/
def get_next_friday (d : ℤ) : ℤ :=
  if 4 ≤ weekday d then d + (11 - weekday d) else d + (4 - weekday d)

/-- A day number falls on a Friday. -/
def isFriday (d : ℤ) : Prop := weekday d = 4

instance (d : ℤ) : Decidable (isFriday d) :=
  inferInstanceAs (Decidable (weekday d = 4))

/-- Python's `int()` applied to an exact rational: truncation toward zero. -/
def pyInt (x : ℚ) : ℤ := if 0 ≤ x then ⌊x⌋ else ⌈x⌉

/-- A transaction record `{date, ticker, amount}` (positive = buy,
negative = sell). -/
structure Tx where
  date : ℤ
  ticker : String
  amount : ℤ
deriving DecidableEq

/-- The option dictionary produced by `OptionsSimulator._get_put_option`. -/
structure PutOpt where
  ticker : String
  date : ℤ
  expire : ℤ
  amount : ℤ
  premium : ℚ
  cost : ℚ
  strike : ℚ
deriving DecidableEq

/-- The simulator's configuration and mutable scalars, as stored by
`OptionsSimulator.__init__`. -/
structure OptionsSimulator where
  relative_strike_price : ℚ
  maturity_months : ℤ
  new_option_trigger : Option ℚ
  cost : ℚ
  cash : ℚ
deriving DecidableEq

/-- Embedding of `OptionsSimulator.__init__`: the constructor stores the
three parameters and zero-initialises `cost` and `cash`; it performs no
validation of any kind. -/
def OptionsSimulator.init (relative_strike_price : ℚ) (maturity_months : ℤ)
    (new_option_trigger : Option ℚ) : OptionsSimulator :=
  { relative_strike_price := relative_strike_price
    maturity_months := maturity_months
    new_option_trigger := new_option_trigger
    cost := 0
    cash := 0 }

/-- The nominal option life in days: `int(maturity_months * 30.5)`. -/
def maturityDays (maturity_months : ℤ) : ℤ :=
  pyInt ((maturity_months : ℚ) * (61 / 2))

/-- Embedding of `OptionsSimulator._get_put_option`: expiry is the next
Friday computed from the open date plus the nominal life, the strike is
`price * relative_strike_price`, and `cost = amount * premium`. -/
def OptionsSimulator.get_put_option (sim : OptionsSimulator) (ticker : String)
    (price : ℚ) (amount : ℤ) (transaction_date : ℤ) (premium : ℚ) : PutOpt :=
  { ticker := ticker
    date := transaction_date
    expire := get_next_friday (transaction_date + maturityDays sim.maturity_months)
    amount := amount
    premium := premium
    cost := (amount : ℚ) * premium
    strike := price * sim.relative_strike_price }

/-- Embedding of `OptionsSimulator._process_one_transaction`.  The premium is
computed in the source from a trailing price history (`read_prices`), the
`volatility` function and the Black–Scholes pricer; that external-data
pipeline is abstracted as the oracle `premAt`, and the spot lookup
`portfolio.prices.loc[date, ticker]` as the oracle `priceAt`.  Strike and
expiry are computed exactly as in the source. -/
def OptionsSimulator.process_one_transaction (sim : OptionsSimulator)
    (ticker : String) (priceAt premAt : ℤ → ℚ) (d : ℤ) (amount : ℤ) : PutOpt :=
  sim.get_put_option ticker (priceAt d) amount d (premAt d)

/-- The engine's `PriorityQueue` holds `(option["date"], option)` pairs, so
extraction returns an element whose OPEN date is minimal.  `popMinDate`
models `queue.get()` on the queue contents: it returns a minimal-open-date
element and the remaining elements. -/
def popMinDate : List PutOpt → Option (PutOpt × List PutOpt)
  | [] => none
  | o :: os =>
    match popMinDate os with
    | none => some (o, [])
    | some (m, rest) =>
      if o.date ≤ m.date then some (o, os) else some (m, o :: rest)

/-- Every synthetic option the engine enqueues is produced by
`_get_put_option`, so its expire date is determined by its open date through
`get_next_friday` and the simulator's fixed maturity. -/
def qWF (sim : OptionsSimulator) (o : PutOpt) : Prop :=
  o.expire = get_next_friday (o.date + maturityDays sim.maturity_months)

/-- The per-ticker loop state of `OptionsSimulator.get_put_options`:
the simulator's running cash balance, the output option list, the synthetic
transaction log, the contents of the priority queue, the running counters,
and the option currently held out of the queue as "next to expire". -/
structure WalkState where
  cash : ℚ
  put_options : List PutOpt
  new_transactions : List Tx
  all_options : List PutOpt
  current_position : ℤ
  current_options : ℤ
  current_max_price : ℚ
  next_expire_option : PutOpt
deriving DecidableEq

/-- Embedding of the expiry-event body of the day loop
(src/simulation/base_simulator.py, the `index_date == current_min_expire`
branch, before the final `all_options.get()`).  Both settlement branches are
transcribed: in-the-money exercise (price < strike) with cash remainder,
synthetic sell/buy emission and position update, and worthless expiry
(price ≥ strike); both end with the coverage-gap re-open. -/
def expirySettle (sim : OptionsSimulator) (ticker : String)
    (priceAt premAt : ℤ → ℚ) (st : WalkState) (index_date : ℤ)
    (current_price : ℚ) : WalkState :=
  let opt := st.next_expire_option
  if current_price < opt.strike then
    let sold_money := opt.strike * (opt.amount : ℚ)
    let number_of_new_shares := pyInt (sold_money / current_price)
    let cash1 := st.cash + (sold_money - (number_of_new_shares : ℚ) * current_price)
    let addition_shares := number_of_new_shares - opt.amount
    let current_options1 := st.current_options - opt.amount
    let ntx := if 0 < addition_shares then
        st.new_transactions ++
          [{ date := index_date - 1, ticker := ticker, amount := -opt.amount },
           { date := index_date, ticker := ticker, amount := number_of_new_shares }]
      else st.new_transactions
    let pos1 := if 0 < addition_shares then st.current_position + addition_shares
      else st.current_position
    let required_options := pos1 - current_options1
    if 0 < required_options then
      let o := sim.process_one_transaction ticker priceAt premAt index_date required_options
      { st with
        cash := cash1
        new_transactions := ntx
        current_position := pos1
        current_options := current_options1 + required_options
        all_options := st.all_options ++ [o]
        put_options := st.put_options ++ [o] }
    else
      { st with
        cash := cash1
        new_transactions := ntx
        current_position := pos1
        current_options := current_options1 }
  else
    let current_options1 := st.current_options - opt.amount
    let required_options := st.current_position - current_options1
    if 0 < required_options then
      let o := sim.process_one_transaction ticker priceAt premAt index_date required_options
      { st with
        current_options := current_options1 + required_options
        all_options := st.all_options ++ [o]
        put_options := st.put_options ++ [o] }
    else
      { st with current_options := current_options1 }

/-- Embedding of one iteration of the day loop: the expiry event (when the
day equals the held option's expire date) followed by the rally trigger.
`queue.get()` on an empty queue blocks forever in the source; that stuck
state is modelled as `none`. -/
def dayStep (sim : OptionsSimulator) (ticker : String)
    (priceAt premAt : ℤ → ℚ) (st : WalkState) (index_date : ℤ)
    (current_price : ℚ) : Option WalkState :=
  let afterExpiry : Option WalkState :=
    if index_date = st.next_expire_option.expire then
      let st1 := expirySettle sim ticker priceAt premAt st index_date current_price
      match popMinDate st1.all_options with
      | none => none
      | some (o, rest) => some { st1 with next_expire_option := o, all_options := rest }
    else some st
  match afterExpiry with
  | none => none
  | some s =>
    match sim.new_option_trigger with
    | none => some s
    | some trigger =>
      if s.current_max_price * trigger < current_price then
        let new_option := sim.process_one_transaction ticker priceAt premAt index_date
          s.current_position
        match popMinDate ((s.all_options ++ [new_option]) ++ [s.next_expire_option]) with
        | none => none
        | some (o, rest) =>
          some { s with
            put_options := s.put_options ++ [new_option]
            all_options := rest
            current_options := s.current_options + s.current_position
            current_max_price := current_price * trigger
            next_expire_option := o }
      else some s

/-- Embedding of the per-ticker walk: seed from the first buy transaction
(the seed option is put on the queue and immediately taken back, so it is
held as next-to-expire over an empty queue), then fold `dayStep` over the
remaining (date, price) rows of the price series. -/
def walkTicker (sim : OptionsSimulator) (ticker : String)
    (priceAt premAt : ℤ → ℚ) (seed : Tx) (days : List (ℤ × ℚ)) :
    Option WalkState :=
  let option0 := sim.process_one_transaction ticker priceAt premAt seed.date seed.amount
  let st0 : WalkState :=
    { cash := sim.cash
      put_options := [option0]
      new_transactions := [seed]
      all_options := []
      current_position := seed.amount
      current_options := option0.amount
      current_max_price := priceAt seed.date
      next_expire_option := option0 }
  days.foldl
    (fun acc dp => acc.bind (fun st => dayStep sim ticker priceAt premAt st dp.1 dp.2))
    (some st0)

/-- A possibly-missing (NaN) float entry of a return series. -/
def nanToZero : Option ℚ → ℚ
  | none => 0
  | some x => x

/-- Running products: `cumprodAux acc l` is numpy's `cumprod` of `l` with the
accumulated prefix product `acc`. -/
def cumprodAux (acc : ℚ) : List ℚ → List ℚ
  | [] => []
  | x :: xs => (acc * x) :: cumprodAux (acc * x) xs

/-- Embedding of `cum_returns` (src/core/stats.py): NaNs in the input are
replaced by 0, then `1` is added, a cumulative product is taken, and the
result is shifted by `-1` when `starting_value == 0` or scaled by
`starting_value` otherwise. -/
def cum_returns (returns : List (Option ℚ)) (starting_value : ℚ) : List ℚ :=
  let sanitized := returns.map (fun v => 1 + nanToZero v)
  let cp := cumprodAux 1 sanitized
  if starting_value = 0 then cp.map (fun x => x - 1) else cp.map (fun x => x * starting_value)

/-- Drawdown recursion: `ddAux m cs` computes `(c - rm) / rm` for each
cumulative value `c` in `cs`, where `rm` is the running maximum
(`np.fmax.accumulate`) of the values seen so far, seeded with `m`. -/
def ddAux (m : ℚ) : List ℚ → List ℚ
  | [] => []
  | c :: cs => ((c - max m c) / max m c) :: ddAux (max m c) cs

/-- Embedding of `drawdown_series` (src/core/stats.py): the source prepends
`out[0] = 100`, computes `cum_returns(returns, starting_value=100)` into the
remaining slots, forms `(out - running_max(out)) / running_max(out)` and
returns `out[1:]`.  The prepended slot contributes `(100-100)/100 = 0` and
seeds the running maximum, which is exactly `ddAux 100`. -/
def drawdown_series (returns : List (Option ℚ)) : List ℚ :=
  ddAux 100 (cum_returns returns 100)

/-- Minimum of a list (`nanmin` on NaN-free data); `none` models the NaN the
source returns for an empty input. -/
def listMin : List ℚ → Option ℚ
  | [] => none
  | x :: xs => some (xs.foldl min x)

/-- Embedding of `max_drawdown` (src/core/stats.py): the minimum of the
drawdown series. -/
def max_drawdown (returns : List (Option ℚ)) : Option ℚ :=
  listMin (drawdown_series returns)

/-- Arithmetic mean of a list of reals. -/
noncomputable def mean (l : List ℝ) : ℝ := l.sum / l.length

/-- Sample variance with `ddof=1`, as computed by `pandas.Series.std` before
the square root. -/
noncomputable def sampleVar (l : List ℝ) : ℝ :=
  ((l.map (fun x => (x - mean l) ^ 2)).sum) / (l.length - 1)

/-- Sample standard deviation with `ddof=1` (`pandas.Series.std`). -/
noncomputable def sampleStd (l : List ℝ) : ℝ := Real.sqrt (sampleVar l)

/-- The series `np.log(actives / actives.shift(1))` with its leading NaN
dropped: entry `i` is `log(s[i+1] / s[i])`. -/
noncomputable def logRatios (s : List ℝ) : List ℝ :=
  (s.zip s.tail).map (fun pr => Real.log (pr.2 / pr.1))

/-- Embedding of `volatility` (src/performance/metrics.py):
`np.log(actives / actives.shift(1)).std() * np.sqrt(len(actives))` — note the
scale factor is the length of the input series itself, not a fixed
annualisation constant. -/
noncomputable def volatility (actives : List ℝ) : ℝ :=
  sampleStd (logRatios actives) * Real.sqrt (actives.length)

/-- A five-day price window oscillating between 1 and 2. -/
def winShort : List ℝ := [1, 2, 1, 2, 1]

/-- A nine-day window of the same oscillating process (two concatenated
copies of the short window's daily moves). -/
def winLong : List ℝ := [1, 2, 1, 2, 1, 2, 1, 2, 1]

/-- The standard normal CDF (`scipy.stats.norm.cdf` with loc 0, scale 1). -/
noncomputable def normCdf (x : ℝ) : ℝ :=
  (∫ t in Set.Iic x, Real.exp (-(t ^ 2) / 2)) / Real.sqrt (2 * Real.pi)

/-- Embedding of `BlackScholesModel.__init__`
(src/simulation/calculations.py). -/
structure BlackScholesModel where
  S : ℝ
  K : ℝ
  T : ℝ
  r : ℝ
  sigma : ℝ

/-- Embedding of `BlackScholesModel.d1`. -/
noncomputable def BlackScholesModel.d1 (m : BlackScholesModel) : ℝ :=
  (Real.log (m.S / m.K) + (m.r + m.sigma ^ 2 / 2) * m.T) / (m.sigma * Real.sqrt m.T)

/-- Embedding of `BlackScholesModel.d2`. -/
noncomputable def BlackScholesModel.d2 (m : BlackScholesModel) : ℝ :=
  m.d1 - m.sigma * Real.sqrt m.T

/-- Embedding of `BlackScholesModel.call_option_price`. -/
noncomputable def BlackScholesModel.call_option_price (m : BlackScholesModel) : ℝ :=
  m.S * normCdf m.d1 - m.K * Real.exp (-m.r * m.T) * normCdf m.d2

/-- Embedding of `BlackScholesModel.put_option_price`. -/
noncomputable def BlackScholesModel.put_option_price (m : BlackScholesModel) : ℝ :=
  m.K * Real.exp (-m.r * m.T) * normCdf (-m.d2) - m.S * normCdf (-m.d1)

/-- The consecutive day numbers `a, a+1, …, a+n-1` (`pd.date_range`). -/
def dateRangeN (a : ℤ) : ℕ → List ℤ
  | 0 => []
  | n + 1 => a :: dateRangeN (a + 1) n

/-- Embedding of the per-transaction expansion inside `get_positions`
(src/performance/portfolio.py): each transaction becomes one row per day
from its date through `today - 1`, carrying its ticker and amount. -/
def expandTx (today : ℤ) (t : Tx) : List Tx :=
  (dateRangeN t.date (today - t.date).toNat).map
    (fun d => { date := d, ticker := t.ticker, amount := t.amount })

/-- Embedding of `get_positions` read at one cell: the pivot table sums the
`amount` values of all expanded rows with the given date and ticker
(`aggfunc="sum"`, `fill_value=0`). -/
def get_positions (transactions : List Tx) (today : ℤ) (d : ℤ) (ticker : String) : ℤ :=
  (((transactions.flatMap (expandTx today)).filter
      (fun e => decide (e.date = d ∧ e.ticker = ticker))).map Tx.amount).sum

/-- Net amount transacted for a ticker on a single day. -/
def netAmount (transactions : List Tx) (d : ℤ) (ticker : String) : ℤ :=
  ((transactions.filter (fun t => decide (t.ticker = ticker ∧ t.date = d))).map Tx.amount).sum

instance (sim : OptionsSimulator) (o : PutOpt) : Decidable (qWF sim o) :=
  inferInstanceAs
    (Decidable (o.expire = get_next_friday (o.date + maturityDays sim.maturity_months)))

/-- A concrete in-flight option (strike 100 covering 10 shares, expiring on
day 32) used to exercise the settlement theorems. -/
def optW : PutOpt :=
  { ticker := "T", date := 0, expire := 32, amount := 10, premium := 0, cost := 0, strike := 100 }

/-- A concrete walk state holding `optW` as the next option to expire. -/
def stW : WalkState :=
  { cash := 0, put_options := [], new_transactions := [], all_options := [],
    current_position := 10, current_options := 10, current_max_price := 100,
    next_expire_option := optW }

lemma emod_decomp (d : ℤ) : ∃ q r, d = 7 * q + r ∧ 0 ≤ r ∧ r < 7 :=
  ⟨d / 7, d % 7, by omega, by omega, by omega⟩

lemma get_next_friday_isFriday (d : ℤ) : isFriday (get_next_friday d) := by
  unfold isFriday get_next_friday weekday
  obtain ⟨q, r, hd, hr0, hr7⟩ := emod_decomp d
  subst hd
  have h7 : (7 * q + r) % 7 = r := by omega
  rw [h7]
  split <;> omega

lemma lt_get_next_friday (d : ℤ) : d < get_next_friday d := by
  unfold get_next_friday weekday
  obtain ⟨q, r, hd, hr0, hr7⟩ := emod_decomp d
  subst hd
  have h7 : (7 * q + r) % 7 = r := by omega
  rw [h7]
  split <;> omega

lemma get_next_friday_le (d : ℤ) : get_next_friday d ≤ d + 7 := by
  unfold get_next_friday weekday
  obtain ⟨q, r, hd, hr0, hr7⟩ := emod_decomp d
  subst hd
  have h7 : (7 * q + r) % 7 = r := by omega
  rw [h7]
  split <;> omega

lemma get_next_friday_min {d f : ℤ} (hf : isFriday f) (hdf : d < f) :
    get_next_friday d ≤ f := by
  unfold isFriday weekday at hf
  unfold get_next_friday weekday
  obtain ⟨q, r, hd, hr0, hr7⟩ := emod_decomp d
  subst hd
  have h7 : (7 * q + r) % 7 = r := by omega
  rw [h7]
  split <;> omega

lemma get_next_friday_mono {a b : ℤ} (h : a ≤ b) :
    get_next_friday a ≤ get_next_friday b :=
  get_next_friday_min (get_next_friday_isFriday b)
    (lt_of_le_of_lt h (lt_get_next_friday b))

lemma pyInt_eq_floor {x : ℚ} (h : 0 ≤ x) : pyInt x = ⌊x⌋ := if_pos h

lemma popMinDate_eq_none {l : List PutOpt} (h : popMinDate l = none) : l = [] := by
  cases l with
  | nil => rfl
  | cons x xs =>
    exfalso
    unfold popMinDate at h
    split at h
    · exact Option.noConfusion h
    · split at h <;> exact Option.noConfusion h

lemma popMinDate_mem {l : List PutOpt} {o : PutOpt} {rest : List PutOpt}
    (h : popMinDate l = some (o, rest)) : o ∈ l := by
  induction l generalizing o rest with
  | nil => simp [popMinDate] at h
  | cons x xs ih =>
    unfold popMinDate at h
    split at h
    · simp only [Option.some.injEq, Prod.mk.injEq] at h
      obtain ⟨rfl, -⟩ := h
      exact List.mem_cons_self x xs
    · rename_i m rest0 heq
      split at h
      · simp only [Option.some.injEq, Prod.mk.injEq] at h
        obtain ⟨rfl, -⟩ := h
        exact List.mem_cons_self x xs
      · simp only [Option.some.injEq, Prod.mk.injEq] at h
        obtain ⟨rfl, -⟩ := h
        exact List.mem_cons_of_mem x (ih heq)

lemma popMinDate_min {l : List PutOpt} {o : PutOpt} {rest : List PutOpt}
    (h : popMinDate l = some (o, rest)) : ∀ o' ∈ l, o.date ≤ o'.date := by
  induction l generalizing o rest with
  | nil => simp [popMinDate] at h
  | cons x xs ih =>
    unfold popMinDate at h
    split at h
    · rename_i heq
      have hxs : xs = [] := popMinDate_eq_none heq
      simp only [Option.some.injEq, Prod.mk.injEq] at h
      obtain ⟨rfl, -⟩ := h
      subst hxs
      intro o' ho'
      simp at ho'
      subst ho'
      exact le_refl _
    · rename_i m rest0 heq
      split at h
      · rename_i hle
        simp only [Option.some.injEq, Prod.mk.injEq] at h
        obtain ⟨rfl, -⟩ := h
        intro o' ho'
        rcases List.mem_cons.mp ho' with rfl | hmem
        · exact le_refl _
        · exact le_trans hle (ih heq o' hmem)
      · rename_i hle
        simp only [Option.some.injEq, Prod.mk.injEq] at h
        obtain ⟨rfl, -⟩ := h
        intro o' ho'
        rcases List.mem_cons.mp ho' with rfl | hmem
        · exact le_of_lt (lt_of_not_le hle)
        · exact ih heq o' hmem

lemma cumprodAux_getD_succ (l : List ℚ) (acc : ℚ) (i : ℕ) (hi : i + 1 < l.length) :
    (cumprodAux acc l).getD (i + 1) 1 =
      (cumprodAux acc l).getD i 1 * l.getD (i + 1) 1 := by
  induction l generalizing acc i with
  | nil => simp at hi
  | cons x xs ih =>
    cases i with
    | zero =>
      cases xs with
      | nil => simp at hi
      | cons y ys => rfl
    | succ n =>
      have hi2 : n + 1 < xs.length := by simpa using hi
      exact ih (acc * x) n hi2

lemma getD_map_sub_one (l : List ℚ) (i : ℕ) :
    (l.map (fun x => x - 1)).getD i 0 = l.getD i 1 - 1 := by
  induction l generalizing i with
  | nil =>
    show (0 : ℚ) = 1 - 1
    norm_num
  | cons x xs ih =>
    cases i with
    | zero => rfl
    | succ n => exact ih n

lemma getD_map_sanitize (r : List (Option ℚ)) (i : ℕ) :
    (r.map (fun v => 1 + nanToZero v)).getD i 1 = 1 + nanToZero (r.getD i none) := by
  induction r generalizing i with
  | nil =>
    show (1 : ℚ) = 1 + nanToZero none
    simp [nanToZero]
  | cons v vs ih =>
    cases i with
    | zero => rfl
    | succ n => exact ih n

lemma cum_returns_zero_eq (r : List (Option ℚ)) :
    cum_returns r 0 =
      (cumprodAux 1 (r.map (fun v => 1 + nanToZero v))).map (fun x => x - 1) := by
  unfold cum_returns
  simp

lemma cumprodAux_length (acc : ℚ) (l : List ℚ) :
    (cumprodAux acc l).length = l.length := by
  induction l generalizing acc with
  | nil => rfl
  | cons x xs ih => simp [cumprodAux, ih]

lemma cum_returns_length (r : List (Option ℚ)) (sv : ℚ) :
    (cum_returns r sv).length = r.length := by
  unfold cum_returns
  split <;> simp [cumprodAux_length]

lemma ddAux_mem_nonpos :
    ∀ (l : List ℚ) (m : ℚ), 0 < m → ∀ x ∈ ddAux m l, x ≤ 0 := by
  intro l
  induction l with
  | nil =>
    intro m hm x hx
    simp [ddAux] at hx
  | cons c cs ih =>
    intro m hm x hx
    have hmax : 0 < max m c := lt_of_lt_of_le hm (le_max_left m c)
    rcases List.mem_cons.mp hx with rfl | hmem
    · exact div_nonpos_of_nonpos_of_nonneg (sub_nonpos.mpr (le_max_right m c)) hmax.le
    · exact ih (max m c) hmax x hmem

lemma ddAux_zero_chain :
    ∀ (l : List ℚ) (m : ℚ), 0 < m → (∀ x ∈ ddAux m l, 0 ≤ x) →
      List.Chain' (fun a b => a ≤ b) (m :: l) := by
  intro l
  induction l with
  | nil => intro m hm hall; simp
  | cons c cs ih =>
    intro m hm hall
    have hmax : 0 < max m c := lt_of_lt_of_le hm (le_max_left m c)
    have h0 : 0 ≤ (c - max m c) / max m c := hall _ (List.mem_cons_self _ _)
    have hc : max m c ≤ c := by
      by_contra hlt
      push_neg at hlt
      have hneg : (c - max m c) / max m c < 0 :=
        div_neg_of_neg_of_pos (by linarith) hmax
      linarith
    have hmc : max m c = c := le_antisymm hc (le_max_right m c)
    have hch := ih (max m c) hmax (fun x hx => hall x (List.mem_cons_of_mem _ hx))
    rw [List.chain'_cons]
    exact ⟨le_trans (le_max_left m c) hc, hmc ▸ hch⟩

lemma foldl_min_le (xs : List ℚ) (a : ℚ) :
    xs.foldl min a ≤ a ∧ ∀ x ∈ xs, xs.foldl min a ≤ x := by
  induction xs generalizing a with
  | nil => exact ⟨le_refl a, by simp⟩
  | cons y ys ih =>
    have h := ih (min a y)
    refine ⟨le_trans h.1 (min_le_left a y), ?_⟩
    intro x hx
    rcases List.mem_cons.mp hx with rfl | hmem
    · exact le_trans h.1 (min_le_right a x)
    · exact h.2 x hmem

lemma foldl_min_mem (xs : List ℚ) (a : ℚ) :
    xs.foldl min a = a ∨ xs.foldl min a ∈ xs := by
  induction xs generalizing a with
  | nil => exact Or.inl rfl
  | cons y ys ih =>
    rcases ih (min a y) with h | h
    · rcases min_choice a y with hm | hm
      · exact Or.inl (by rw [List.foldl_cons, h, hm])
      · exact Or.inr (by rw [List.foldl_cons, h, hm]; exact List.mem_cons_self _ _)
    · exact Or.inr (List.mem_cons_of_mem _ h)

lemma sum_filter_expand (tkr tk : String) (amt d : ℤ) :
    ∀ (n : ℕ) (a : ℤ),
      ((((dateRangeN a n).map
            (fun x => ({ date := x, ticker := tkr, amount := amt } : Tx))).filter
          (fun e => decide (e.date = d ∧ e.ticker = tk))).map Tx.amount).sum =
        if a ≤ d ∧ d < a + n ∧ tkr = tk then amt else 0 := by
  intro n
  induction n with
  | zero =>
    intro a
    rw [if_neg (by rintro ⟨h1, h2, h3⟩; omega)]
    rfl
  | succ k ih =>
    intro a
    show ((((a :: dateRangeN (a + 1) k).map
        (fun x => ({ date := x, ticker := tkr, amount := amt } : Tx))).filter
        (fun e => decide (e.date = d ∧ e.ticker = tk))).map Tx.amount).sum = _
    simp only [List.map_cons, List.filter_cons, decide_eq_true_eq]
    by_cases hhead : a = d ∧ tkr = tk
    · have h1 := hhead.1
      have h2 := hhead.2
      rw [if_pos ⟨h1, h2⟩]
      simp only [List.map_cons, List.sum_cons]
      rw [ih (a + 1), if_neg (by rintro ⟨g1, g2, g3⟩; omega),
        if_pos ⟨by omega, by omega, h2⟩]
      omega
    · rw [if_neg (by rintro ⟨h1, h2⟩; exact hhead ⟨h1, h2⟩)]
      rw [ih (a + 1)]
      by_cases hc : a + 1 ≤ d ∧ d < a + 1 + k ∧ tkr = tk
      · rw [if_pos hc, if_pos ⟨by omega, by omega, hc.2.2⟩]
      · rw [if_neg hc, if_neg ?_]
        rintro ⟨h1, h2, h3⟩
        apply hc
        refine ⟨?_, by omega, h3⟩
        rcases eq_or_lt_of_le h1 with rfl | hlt
        · exact absurd ⟨rfl, h3⟩ hhead
        · omega

lemma get_positions_eq (transactions : List Tx) (today d : ℤ) (tk : String)
    (hd : d ≤ today - 1) :
    get_positions transactions today d tk =
      ((transactions.filter
          (fun t => decide (t.ticker = tk ∧ t.date ≤ d))).map Tx.amount).sum := by
  induction transactions with
  | nil => rfl
  | cons t ts ih =>
    unfold get_positions at ih ⊢
    simp only [List.flatMap_cons, List.filter_append, List.map_append, List.sum_append]
    rw [ih]
    unfold expandTx
    rw [sum_filter_expand]
    simp only [List.filter_cons, decide_eq_true_eq]
    by_cases hcond : t.ticker = tk ∧ t.date ≤ d
    · rw [if_pos ⟨hcond.2, by omega, hcond.1⟩, if_pos hcond]
      simp only [List.map_cons, List.sum_cons]
    · rw [if_neg (by rintro ⟨h1, h2, h3⟩; exact hcond ⟨h3, h1⟩), if_neg hcond]
      omega

lemma sum_filter_split (ts : List Tx) (tk : String) (d : ℤ) :
    ((ts.filter (fun t => decide (t.ticker = tk ∧ t.date ≤ d))).map Tx.amount).sum =
      ((ts.filter (fun t => decide (t.ticker = tk ∧ t.date ≤ d - 1))).map Tx.amount).sum +
        ((ts.filter (fun t => decide (t.ticker = tk ∧ t.date = d))).map Tx.amount).sum := by
  induction ts with
  | nil => simp
  | cons t ts ih =>
    simp only [List.filter_cons, decide_eq_true_eq]
    by_cases ha : t.ticker = tk
    · simp only [ha, true_and]
      split_ifs <;>
        (try simp only [List.map_cons, List.sum_cons]) <;>
        rw [ih] <;>
        try omega
    · simp only [ha, false_and, if_false]
      exact ih

lemma gaussian_exp_eq :
    (fun t : ℝ => Real.exp (-(t ^ 2) / 2)) = fun t : ℝ => Real.exp (-(1 / 2) * t ^ 2) := by
  funext t
  ring_nf

lemma gaussian_integrable : MeasureTheory.Integrable (fun t : ℝ => Real.exp (-(t ^ 2) / 2)) := by
  rw [gaussian_exp_eq]
  exact integrable_exp_neg_mul_sq (by norm_num)

lemma gaussian_total :
    (∫ t : ℝ, Real.exp (-(t ^ 2) / 2)) = Real.sqrt (2 * Real.pi) := by
  rw [gaussian_exp_eq]
  rw [integral_gaussian (1 / 2 : ℝ)]
  congr 1
  ring

lemma normCdf_add_neg (x : ℝ) : normCdf x + normCdf (-x) = 1 := by
  have hrefl : (∫ t in Set.Iic (-x), Real.exp (-(t ^ 2) / 2)) =
      ∫ t in Set.Ioi x, Real.exp (-(t ^ 2) / 2) := by
    rw [← integral_comp_neg_Ioi]
    simp [neg_sq]
  have hsplit : (∫ t in Set.Iic x, Real.exp (-(t ^ 2) / 2)) +
      (∫ t in Set.Ioi x, Real.exp (-(t ^ 2) / 2)) =
      ∫ t : ℝ, Real.exp (-(t ^ 2) / 2) :=
    intervalIntegral.integral_Iic_add_Ioi gaussian_integrable.integrableOn
      gaussian_integrable.integrableOn
  unfold normCdf
  rw [hrefl, div_add_div_same, hsplit, gaussian_total]
  exact div_self (ne_of_gt (Real.sqrt_pos.mpr (by positivity)))

/-- C3 counterexample: with `maturity_months = 1` an option opened on day 2
has nominal maturity day 32 (= 2 + int(30.5)), which is a Friday; the claim
("the expire date is that same Friday") requires expire = 32, but
`get_next_friday` maps a Friday to the FOLLOWING Friday, so the engine sets
expire = 39. -/
theorem C3_same_friday_cex :
    (2 : ℤ) + maturityDays (OptionsSimulator.init 1 1 none).maturity_months = 32 ∧
    isFriday 32 ∧
    ((OptionsSimulator.init 1 1 none).get_put_option "T" 100 10 2 0).expire = 39 ∧
    ((OptionsSimulator.init 1 1 none).get_put_option "T" 100 10 2 0).expire ≠ 32 := by
  have hm : maturityDays (OptionsSimulator.init 1 1 none).maturity_months = 30 := by
    norm_num [maturityDays, pyInt, OptionsSimulator.init]
  refine ⟨by rw [hm]; decide, by decide, ?_, ?_⟩
  · show get_next_friday (2 + maturityDays (OptionsSimulator.init 1 1 none).maturity_months) = 39
    rw [hm]
    decide
  · show get_next_friday (2 + maturityDays (OptionsSimulator.init 1 1 none).maturity_months) ≠ 32
    rw [hm]
    decide

/-- C3 amended: for every synthetic option the engine creates, the expire
date is the first Friday STRICTLY after the nominal maturity date (the open
date plus int(maturity_months × 30.5) days); in particular a nominal date
that is itself a Friday maps to the following Friday, not to itself. -/
theorem C3_expire_first_friday_after (sim : OptionsSimulator) (ticker : String)
    (price : ℚ) (amount : ℤ) (d : ℤ) (premium : ℚ) :
    isFriday (sim.get_put_option ticker price amount d premium).expire ∧
    d + maturityDays sim.maturity_months <
      (sim.get_put_option ticker price amount d premium).expire ∧
    ∀ f : ℤ, isFriday f → d + maturityDays sim.maturity_months < f →
      (sim.get_put_option ticker price amount d premium).expire ≤ f :=
  ⟨get_next_friday_isFriday _, lt_get_next_friday _,
    fun _ hf hlt => get_next_friday_min hf hlt⟩

/-- Witness for the amended C3 theorem at a concrete configuration. -/
theorem C3_expire_first_friday_after_witness :
    ((OptionsSimulator.init 1 1 none).get_put_option "T" 100 10 2 0).expire ≤ 39 :=
  (C3_expire_first_friday_after (OptionsSimulator.init 1 1 none) "T" 100 10 2 0).2.2
    39 (by decide) (by norm_num [maturityDays, pyInt, OptionsSimulator.init])

/-- C4: the claim (and the spec) require malformed configurations —
`relative_strike_price ≤ 0`, `maturity_months < 1`, trigger `< 1` — to be
rejected at construction; `OptionsSimulator.__init__` performs no validation
and returns normally with all three malformed values stored verbatim. -/
theorem C4_init_accepts_malformed :
    OptionsSimulator.init (-1) 0 (some (1 / 2)) =
      { relative_strike_price := -1
        maturity_months := 0
        new_option_trigger := some (1 / 2)
        cost := 0
        cash := 0 } := rfl

/-- C5: every option the engine enqueues is built by `_get_put_option`, whose
expire date is a monotone function of its open date (the queue key), so even
though the priority queue is keyed by the OPEN date, each extraction
("pop next to expire" after seeding, after an expiry event, and after a
rally-trigger re-queue) returns an option whose expire date is minimal among
all options currently in the set. -/
theorem C5_pop_min_expire (sim : OptionsSimulator) :
    (∀ (ticker : String) (price : ℚ) (amount : ℤ) (d : ℤ) (premium : ℚ),
        qWF sim (sim.get_put_option ticker price amount d premium)) ∧
    ∀ (l : List PutOpt) (o : PutOpt) (rest : List PutOpt),
      (∀ o' ∈ l, qWF sim o') → popMinDate l = some (o, rest) →
        ∀ o' ∈ l, o.expire ≤ o'.expire := by
  constructor
  · intro ticker price amount d premium
    rfl
  · intro l o rest hwf hpop o' ho'
    have hdate : o.date ≤ o'.date := popMinDate_min hpop o' ho'
    have ho : qWF sim o := hwf o (popMinDate_mem hpop)
    have ho2 : qWF sim o' := hwf o' ho'
    unfold qWF at ho ho2
    rw [ho, ho2]
    exact get_next_friday_mono (by omega)

/-- Witness for C5 on a concrete two-element queue. -/
theorem C5_pop_min_expire_witness :
    ((OptionsSimulator.init 1 1 none).get_put_option "T" 100 10 0 0).expire ≤
      ((OptionsSimulator.init 1 1 none).get_put_option "T" 100 5 7 0).expire :=
  (C5_pop_min_expire (OptionsSimulator.init 1 1 none)).2
    [(OptionsSimulator.init 1 1 none).get_put_option "T" 100 10 0 0,
     (OptionsSimulator.init 1 1 none).get_put_option "T" 100 5 7 0]
    ((OptionsSimulator.init 1 1 none).get_put_option "T" 100 10 0 0)
    [(OptionsSimulator.init 1 1 none).get_put_option "T" 100 5 7 0]
    (by
      intro o' ho'
      rcases List.mem_cons.mp ho' with rfl | h2
      · rfl
      rcases List.mem_cons.mp h2 with rfl | h3
      · rfl
      simp at h3)
    rfl
    ((OptionsSimulator.init 1 1 none).get_put_option "T" 100 5 7 0) (by simp)

/-- C1: on an expiry day with the current price strictly below the expiring
option's strike, the settlement step credits the running cash balance with
`strike·amount − n·price` where `n = ⌊strike·amount/price⌋` (the source's
`int()` truncation agrees with the floor because the operands are
non-negative), and exactly when `n` exceeds the covered amount it appends a
synthetic sell of the covered amount dated one day before the expiry day
followed by a synthetic buy of `n` dated the expiry day, increasing the
position by `n − amount`; otherwise the transaction log and position are
unchanged. -/
theorem C1_itm_settlement (sim : OptionsSimulator) (ticker : String)
    (priceAt premAt : ℤ → ℚ) (st : WalkState) (index_date : ℤ) (p : ℚ)
    (hday : index_date = st.next_expire_option.expire)
    (hitm : p < st.next_expire_option.strike)
    (hp : 0 < p) (hamt : 0 ≤ st.next_expire_option.amount) :
    (expirySettle sim ticker priceAt premAt st index_date p).cash =
      st.cash + (st.next_expire_option.strike * (st.next_expire_option.amount : ℚ) -
        (⌊st.next_expire_option.strike * (st.next_expire_option.amount : ℚ) / p⌋ : ℚ) * p) ∧
    (st.next_expire_option.amount <
        ⌊st.next_expire_option.strike * (st.next_expire_option.amount : ℚ) / p⌋ →
      (expirySettle sim ticker priceAt premAt st index_date p).new_transactions =
        st.new_transactions ++
          [{ date := index_date - 1, ticker := ticker,
             amount := -st.next_expire_option.amount },
           { date := index_date, ticker := ticker,
             amount := ⌊st.next_expire_option.strike *
               (st.next_expire_option.amount : ℚ) / p⌋ }] ∧
      (expirySettle sim ticker priceAt premAt st index_date p).current_position =
        st.current_position +
          (⌊st.next_expire_option.strike * (st.next_expire_option.amount : ℚ) / p⌋ -
            st.next_expire_option.amount)) ∧
    (⌊st.next_expire_option.strike * (st.next_expire_option.amount : ℚ) / p⌋ ≤
        st.next_expire_option.amount →
      (expirySettle sim ticker priceAt premAt st index_date p).new_transactions =
        st.new_transactions ∧
      (expirySettle sim ticker priceAt premAt st index_date p).current_position =
        st.current_position) := by
  have hK : 0 < st.next_expire_option.strike := lt_trans hp hitm
  have hsold : 0 ≤ st.next_expire_option.strike * (st.next_expire_option.amount : ℚ) :=
    mul_nonneg hK.le (by exact_mod_cast hamt)
  have hn : pyInt (st.next_expire_option.strike * (st.next_expire_option.amount : ℚ) / p) =
      ⌊st.next_expire_option.strike * (st.next_expire_option.amount : ℚ) / p⌋ :=
    pyInt_eq_floor (div_nonneg hsold hp.le)
  unfold expirySettle
  rw [if_pos hitm]
  simp only [hn]
  split_ifs with h1 h2 h3 <;>
    refine ⟨by simp, fun hlt => ⟨?_, ?_⟩, fun hle => ⟨?_, ?_⟩⟩ <;>
    first
    | (exfalso; omega)
    | simp
    | (simp; omega)

/-- C2: on an expiry day with the price at or above the strike no share
transactions are emitted; and in both settlement branches the step first
reduces `current_options` by the expired amount and then, exactly when the
(possibly updated) position exceeds that reduced coverage, opens one new
option sized to the gap and dated the current day, appending it to both the
active set and the output option list; otherwise the option collections are
unchanged. -/
theorem C2_expiry_coverage (sim : OptionsSimulator) (ticker : String)
    (priceAt premAt : ℤ → ℚ) (st : WalkState) (index_date : ℤ) (p : ℚ)
    (hday : index_date = st.next_expire_option.expire) :
    (st.next_expire_option.strike ≤ p →
      (expirySettle sim ticker priceAt premAt st index_date p).new_transactions =
        st.new_transactions) ∧
    (st.current_options - st.next_expire_option.amount <
        (expirySettle sim ticker priceAt premAt st index_date p).current_position →
      (expirySettle sim ticker priceAt premAt st index_date p).current_options =
        (expirySettle sim ticker priceAt premAt st index_date p).current_position ∧
      (expirySettle sim ticker priceAt premAt st index_date p).put_options =
        st.put_options ++
          [sim.process_one_transaction ticker priceAt premAt index_date
            ((expirySettle sim ticker priceAt premAt st index_date p).current_position -
              (st.current_options - st.next_expire_option.amount))] ∧
      (expirySettle sim ticker priceAt premAt st index_date p).all_options =
        st.all_options ++
          [sim.process_one_transaction ticker priceAt premAt index_date
            ((expirySettle sim ticker priceAt premAt st index_date p).current_position -
              (st.current_options - st.next_expire_option.amount))]) ∧
    ((expirySettle sim ticker priceAt premAt st index_date p).current_position ≤
        st.current_options - st.next_expire_option.amount →
      (expirySettle sim ticker priceAt premAt st index_date p).current_options =
        st.current_options - st.next_expire_option.amount ∧
      (expirySettle sim ticker priceAt premAt st index_date p).put_options =
        st.put_options ∧
      (expirySettle sim ticker priceAt premAt st index_date p).all_options =
        st.all_options) ∧
    (∀ amt : ℤ,
      (sim.process_one_transaction ticker priceAt premAt index_date amt).date = index_date ∧
      (sim.process_one_transaction ticker priceAt premAt index_date amt).amount = amt) := by
  unfold expirySettle
  dsimp only
  split_ifs <;>
    refine ⟨fun hw => ?_, fun hgap => ?_, fun hnogap => ?_, fun amt => ⟨rfl, rfl⟩⟩ <;>
    first
    | rfl
    | exact ⟨rfl, rfl, rfl⟩
    | (exfalso; linarith)
    | (exfalso; dsimp only at hgap; omega)
    | (exfalso; dsimp only at hnogap; omega)
    | (refine ⟨by dsimp only; omega, rfl, rfl⟩)

/-- Witness for C1 on the spec's settlement scenario: price 80 at expiry
against strike 100 over 10 covered shares buys ⌊1000/80⌋ = 12 shares,
credits the 40 cash remainder, and emits the sell of 10 dated day 31 and the
buy of 12 dated day 32. -/
theorem C1_itm_settlement_witness :
    (expirySettle (OptionsSimulator.init 1 1 none) "T" (fun _ => 100) (fun _ => 0)
        stW 32 80).cash = 40 ∧
    (expirySettle (OptionsSimulator.init 1 1 none) "T" (fun _ => 100) (fun _ => 0)
        stW 32 80).new_transactions =
      [{ date := 31, ticker := "T", amount := -10 },
       { date := 32, ticker := "T", amount := 12 }] := by
  have h := C1_itm_settlement (OptionsSimulator.init 1 1 none) "T" (fun _ => 100)
    (fun _ => 0) stW 32 80 rfl (by norm_num [stW, optW]) (by norm_num)
    (by norm_num [stW, optW])
  have hfl : ⌊stW.next_expire_option.strike * (stW.next_expire_option.amount : ℚ) / 80⌋ =
      12 := by
    norm_num [stW, optW]
  constructor
  · rw [h.1, hfl]
    norm_num [stW, optW]
  · have h2 := (h.2.1 (by rw [hfl]; norm_num [stW, optW])).1
    rw [h2, hfl]
    norm_num [stW, optW]

/-- Witness for C2 on the spec's worthless-expiry scenario: price 100 equals
the strike at expiry, so no share transactions are emitted; the expired
coverage of 10 leaves a gap of 10 against the position, so one replacement
option of amount 10 dated the expiry day is opened. -/
theorem C2_expiry_coverage_witness :
    (expirySettle (OptionsSimulator.init 1 1 none) "T" (fun _ => 100) (fun _ => 0)
        stW 32 100).new_transactions = [] ∧
    (expirySettle (OptionsSimulator.init 1 1 none) "T" (fun _ => 100) (fun _ => 0)
        stW 32 100).current_options = 10 ∧
    (expirySettle (OptionsSimulator.init 1 1 none) "T" (fun _ => 100) (fun _ => 0)
        stW 32 100).put_options =
      [(OptionsSimulator.init 1 1 none).process_one_transaction "T" (fun _ => 100)
        (fun _ => 0) 32 10] := by
  have h := C2_expiry_coverage (OptionsSimulator.init 1 1 none) "T" (fun _ => 100)
    (fun _ => 0) stW 32 100 rfl
  have hpos : (expirySettle (OptionsSimulator.init 1 1 none) "T" (fun _ => 100)
      (fun _ => 0) stW 32 100).current_position = 10 := by
    norm_num [expirySettle, stW, optW]
  have hgap := h.2.1 (by rw [hpos]; norm_num [stW, optW])
  refine ⟨?_, ?_, ?_⟩
  · rw [h.1 (by norm_num [stW, optW])]
    rfl
  · rw [hgap.1, hpos]
  · rw [hgap.2.1, hpos]
    norm_num [stW, optW]

/-- C7: with NaNs treated as 0, `cum_returns(r, 0)` starts at the first
(sanitised) return and satisfies the compounding recurrence
`c[i] = (1 + c[i-1])·(1 + r[i]) − 1` at every later index. -/
theorem C7_cum_returns_compounding (r : List (Option ℚ)) (h0 : 0 < r.length) :
    (cum_returns r 0).getD 0 0 = nanToZero (r.getD 0 none) ∧
    ∀ i : ℕ, i + 1 < r.length →
      (cum_returns r 0).getD (i + 1) 0 =
        (1 + (cum_returns r 0).getD i 0) * (1 + nanToZero (r.getD (i + 1) none)) - 1 := by
  constructor
  · rw [cum_returns_zero_eq, getD_map_sub_one]
    cases r with
    | nil => simp at h0
    | cons v vs =>
      show (cumprodAux 1 ((v :: vs).map fun w => 1 + nanToZero w)).getD 0 1 - 1 =
        nanToZero v
      show 1 * (1 + nanToZero v) - 1 = nanToZero v
      ring
  · intro i hi
    rw [cum_returns_zero_eq, getD_map_sub_one, getD_map_sub_one]
    rw [cumprodAux_getD_succ _ 1 i (by simpa using hi)]
    rw [getD_map_sanitize]
    ring

/-- Witness for C7 on a three-element series containing a NaN. -/
theorem C7_cum_returns_compounding_witness :
    (cum_returns [some (1 / 10), none, some (1 / 5)] 0).getD 2 0 =
      (1 + (cum_returns [some (1 / 10), none, some (1 / 5)] 0).getD 1 0) *
        (1 + nanToZero (([some (1 / 10), none, some (1 / 5)] :
          List (Option ℚ)).getD 2 none)) - 1 :=
  (C7_cum_returns_compounding [some (1 / 10), none, some (1 / 5)] (by simp)).2 1 (by simp)

/-- C8: the maximum drawdown of a non-empty return series is non-positive,
and it is zero only when the 100-based cumulative capitalisation series
(including its 100 origin) is non-decreasing throughout. -/
theorem C8_max_drawdown_nonpos (r : List (Option ℚ)) (h : r ≠ []) :
    ∃ m, max_drawdown r = some m ∧ m ≤ 0 ∧
      (m = 0 → List.Chain' (fun a b => a ≤ b) (100 :: cum_returns r 100)) := by
  have hlen : 0 < (cum_returns r 100).length := by
    rw [cum_returns_length]
    exact List.length_pos.mpr h
  have hddlen : drawdown_series r ≠ [] := by
    unfold drawdown_series
    cases hcum : cum_returns r 100 with
    | nil => rw [hcum] at hlen; simp at hlen
    | cons c cs => simp [ddAux]
  obtain ⟨x, xs, hxl⟩ : ∃ x xs, drawdown_series r = x :: xs := by
    cases hdd : drawdown_series r with
    | nil => exact absurd hdd hddlen
    | cons x xs => exact ⟨x, xs, rfl⟩
  refine ⟨xs.foldl min x, ?_, ?_, ?_⟩
  · unfold max_drawdown
    rw [hxl]
    rfl
  · have hmem : xs.foldl min x = x ∨ xs.foldl min x ∈ xs := foldl_min_mem xs x
    have hnp : ∀ y ∈ drawdown_series r, y ≤ 0 :=
      ddAux_mem_nonpos (cum_returns r 100) 100 (by norm_num)
    rcases hmem with he | hmem
    · rw [he]
      exact hnp x (hxl ▸ List.mem_cons_self _ _)
    · exact hnp _ (hxl ▸ List.mem_cons_of_mem _ hmem)
  · intro hzero
    apply ddAux_zero_chain (cum_returns r 100) 100 (by norm_num)
    intro y hy
    have hmin : xs.foldl min x ≤ y := by
      have : y ∈ x :: xs := hxl ▸ hy
      rcases List.mem_cons.mp this with rfl | hmem
      · exact (foldl_min_le xs y).1
      · exact (foldl_min_le xs x).2 y hmem
    rw [hzero] at hmin
    exact hmin

/-- Witness for C8 on a concrete two-step series with a loss. -/
theorem C8_max_drawdown_nonpos_witness :
    ∃ m, max_drawdown [some 1, some (-1 / 2)] = some m ∧ m ≤ 0 ∧
      (m = 0 → List.Chain' (fun a b => a ≤ b)
        (100 :: cum_returns [some 1, some (-1 / 2)] 100)) :=
  C8_max_drawdown_nonpos [some 1, some (-1 / 2)] (by simp)

/-- C9: for any transaction log, the position cell read from the pivot table
at a day inside the grid equals the sum of the signed amounts of all
same-ticker transactions dated on or before that day; equivalently the
position equals the previous day's position plus the day's net transacted
amount. -/
theorem C9_positions_roundtrip (transactions : List Tx) (today d : ℤ) (tk : String)
    (hd : d ≤ today - 1) :
    get_positions transactions today d tk =
      ((transactions.filter
          (fun t => decide (t.ticker = tk ∧ t.date ≤ d))).map Tx.amount).sum ∧
    get_positions transactions today d tk =
      get_positions transactions today (d - 1) tk + netAmount transactions d tk := by
  refine ⟨get_positions_eq transactions today d tk hd, ?_⟩
  rw [get_positions_eq transactions today d tk hd,
    get_positions_eq transactions today (d - 1) tk (by omega)]
  unfold netAmount
  exact sum_filter_split transactions tk d

/-- Witness for C9 on a concrete three-transaction log. -/
theorem C9_positions_roundtrip_witness :
    get_positions [⟨0, "A", 5⟩, ⟨2, "A", -2⟩, ⟨1, "B", 7⟩] 4 2 "A" =
      ((([⟨0, "A", 5⟩, ⟨2, "A", -2⟩, ⟨1, "B", 7⟩] : List Tx).filter
          (fun t => decide (t.ticker = "A" ∧ t.date ≤ 2))).map Tx.amount).sum ∧
    get_positions [⟨0, "A", 5⟩, ⟨2, "A", -2⟩, ⟨1, "B", 7⟩] 4 2 "A" =
      get_positions [⟨0, "A", 5⟩, ⟨2, "A", -2⟩, ⟨1, "B", 7⟩] 4 1 "A" +
        netAmount [⟨0, "A", 5⟩, ⟨2, "A", -2⟩, ⟨1, "B", 7⟩] 2 "A" :=
  C9_positions_roundtrip [⟨0, "A", 5⟩, ⟨2, "A", -2⟩, ⟨1, "B", 7⟩] 4 2 "A" (by decide)

/-- C6: put–call parity for the Black–Scholes pricer — for positive spot,
strike, maturity and volatility, `call − put = S − K·e^{−rT}` (exactly, in
the real-number model of the float computation). -/
theorem C6_put_call_parity (m : BlackScholesModel) (hS : 0 < m.S) (hK : 0 < m.K)
    (hT : 0 < m.T) (hsigma : 0 < m.sigma) :
    m.call_option_price - m.put_option_price = m.S - m.K * Real.exp (-m.r * m.T) := by
  have h1 := normCdf_add_neg m.d1
  have h2 := normCdf_add_neg m.d2
  unfold BlackScholesModel.call_option_price BlackScholesModel.put_option_price
  linear_combination m.S * h1 - m.K * Real.exp (-m.r * m.T) * h2

/-- Witness for C6 at S = K = T = σ = 1, r = 0. -/
theorem C6_put_call_parity_witness :
    (⟨1, 1, 1, 0, 1⟩ : BlackScholesModel).call_option_price -
        (⟨1, 1, 1, 0, 1⟩ : BlackScholesModel).put_option_price =
      (1 : ℝ) - 1 * Real.exp (-0 * 1) :=
  C6_put_call_parity ⟨1, 1, 1, 0, 1⟩ (by norm_num) (by norm_num) (by norm_num)
    (by norm_num)

/-- C10: the volatility function is the sample standard deviation of the
log-ratios scaled by the square root of the LENGTH of the input series, so
the annualisation factor grows with the window: two windows of the same
oscillating process (the long one repeating exactly the short one's daily
moves) get different volatilities. -/
theorem C10_volatility_scales_with_window :
    (∀ s : List ℝ, volatility s = sampleStd (logRatios s) * Real.sqrt s.length) ∧
    logRatios winLong = logRatios winShort ++ logRatios winShort ∧
    volatility winShort ≠ volatility winLong := by
  refine ⟨fun s => rfl, rfl, ?_⟩
  intro heq
  have hL : 0 < Real.log 2 := Real.log_pos (by norm_num)
  have hlr5 : logRatios winShort =
      [Real.log 2, -Real.log 2, Real.log 2, -Real.log 2] := by
    show [Real.log (2 / 1), Real.log (1 / 2), Real.log (2 / 1), Real.log (1 / 2)] = _
    rw [show (2 : ℝ) / 1 = 2 by norm_num, show (1 : ℝ) / 2 = 2⁻¹ by norm_num,
      Real.log_inv]
  have hlr9 : logRatios winLong =
      [Real.log 2, -Real.log 2, Real.log 2, -Real.log 2,
       Real.log 2, -Real.log 2, Real.log 2, -Real.log 2] := by
    show [Real.log (2 / 1), Real.log (1 / 2), Real.log (2 / 1), Real.log (1 / 2),
      Real.log (2 / 1), Real.log (1 / 2), Real.log (2 / 1), Real.log (1 / 2)] = _
    rw [show (2 : ℝ) / 1 = 2 by norm_num, show (1 : ℝ) / 2 = 2⁻¹ by norm_num,
      Real.log_inv]
  have hv5 : sampleVar (logRatios winShort) = 4 / 3 * Real.log 2 ^ 2 := by
    rw [hlr5]
    unfold sampleVar mean
    simp only [List.map_cons, List.map_nil, List.sum_cons, List.sum_nil,
      List.length_cons, List.length_nil]
    push_cast
    ring
  have hv9 : sampleVar (logRatios winLong) = 8 / 7 * Real.log 2 ^ 2 := by
    rw [hlr9]
    unfold sampleVar mean
    simp only [List.map_cons, List.map_nil, List.sum_cons, List.sum_nil,
      List.length_cons, List.length_nil]
    push_cast
    ring
  have hlen5 : ((winShort.length : ℝ)) = 5 := by norm_num [winShort]
  have hlen9 : ((winLong.length : ℝ)) = 9 := by norm_num [winLong]
  have hsq5 : volatility winShort ^ 2 = 20 / 3 * Real.log 2 ^ 2 := by
    unfold volatility sampleStd
    rw [mul_pow, Real.sq_sqrt (by rw [hv5]; positivity),
      Real.sq_sqrt (by positivity), hv5, hlen5]
    ring
  have hsq9 : volatility winLong ^ 2 = 72 / 7 * Real.log 2 ^ 2 := by
    unfold volatility sampleStd
    rw [mul_pow, Real.sq_sqrt (by rw [hv9]; positivity),
      Real.sq_sqrt (by positivity), hv9, hlen9]
    ring
  rw [heq, hsq9] at hsq5
  nlinarith [mul_pos hL hL]

end HedgeSim
